import Mathlib

/-!
Verification of the `bigutil` Uint256 component (uint256.go, bigutil.go).

Strings are modelled as `List Char`; every input exercised by the claims is
ASCII, where Go's byte-wise and rune-wise views of a string coincide.
`big.Int` values are modelled as `Int`; a `*big.Int` argument that may be nil
is modelled as `Option Int`.  Functions that can panic at runtime (nil
dereference, out-of-range index) return a dedicated `panics` outcome.
-/

set_option maxRecDepth 4000

namespace Bigutil

/-- bigutil.go `is0x`: `len(s) == 2 && s[0] == '0' && s[1] == 'x'`. -/
def is0x (s : List Char) : Bool :=
  decide (s.length = 2) && decide (s.getD 0 ' ' = '0') && decide (s.getD 1 ' ' = 'x')

/-- bigutil.go `has0xPrefix`: `len(s) >= 2 && is0x(s[:2])`. -/
def has0xPrefix (s : List Char) : Bool :=
  decide (2 ≤ s.length) && is0x (s.take 2)

/-- `big.Int.BitLen` (length of the absolute value in bits, 0 for zero),
with a structural fuel argument so that it evaluates in the kernel.
`bitLenAux fuel n` computes the bit length of `n` whenever `n ≤ fuel`. -/
def bitLenAux : Nat → Nat → Nat
  | _, 0 => 0
  | 0, _ + 1 => 0
  | fuel + 1, n + 1 => bitLenAux fuel ((n + 1) / 2) + 1

/-- `big.Int.BitLen` for a non-negative value `n`. -/
def bitLen (n : Nat) : Nat := bitLenAux n n

/-- Error values returned by go-ethereum's `hexutil` package. -/
inductive HexErr where
  | emptyString      -- hexutil.ErrEmptyString
  | missingPrefix    -- hexutil.ErrMissingPrefix
  | emptyNumber      -- hexutil.ErrEmptyNumber
  | leadingZero      -- hexutil.ErrLeadingZero
  | badNibbleErr     -- hexutil.ErrSyntax: a character is not a hex digit
  | big256Range      -- hexutil.ErrBig256Range: more than 64 hex digits
deriving DecidableEq, Repr

/-- hexutil's own `has0xPrefix` (unlike bigutil's, it is case-insensitive):
`len(input) >= 2 && input[0] == '0' && (input[1] == 'x' || input[1] == 'X')`. -/
def ethHas0xPrefix (input : List Char) : Bool :=
  decide (2 ≤ input.length) && decide (input.getD 0 ' ' = '0') &&
    (decide (input.getD 1 ' ' = 'x') || decide (input.getD 1 ' ' = 'X'))

/-- hexutil `checkNumber`: validate the prefix and return the digit portion. -/
def checkNumber (input : List Char) : Except HexErr (List Char) :=
  if input.length = 0 then .error .emptyString
  else if !ethHas0xPrefix input then .error .missingPrefix
  else
    let raw := input.drop 2
    if raw.length = 0 then .error .emptyNumber
    else if 1 < raw.length ∧ raw.getD 0 ' ' = '0' then .error .leadingZero
    else .ok raw

/-- hexutil `badNibble = ^uint64(0)`, the in-band marker for a bad digit. -/
def badNibble : Nat := 2 ^ 64 - 1

/-- hexutil `decodeNibble`. -/
def decodeNibble (c : Char) : Nat :=
  if '0' ≤ c ∧ c ≤ '9' then c.toNat - '0'.toNat
  else if 'A' ≤ c ∧ c ≤ 'F' then c.toNat - 'A'.toNat + 10
  else if 'a' ≤ c ∧ c ≤ 'f' then c.toNat - 'a'.toNat + 10
  else badNibble

/-- One iteration of the digit loop of hexutil `DecodeBig`: fail on a bad
nibble, otherwise shift the accumulator and add the nibble. -/
def hexStep (acc : Option Nat) (c : Char) : Option Nat :=
  match acc with
  | none => none
  | some a =>
    if decodeNibble c = badNibble then none else some (a * 16 + decodeNibble c)

/-- The digit loop of hexutil `DecodeBig`: the word-chunked accumulation
computes the big-endian base-16 value of `raw`, failing on any bad nibble. -/
def parseHexDigits (raw : List Char) : Option Nat :=
  raw.foldl hexStep (some 0)

/-- hexutil `DecodeBig`: `checkNumber`, a 64-nibble length cap, then the
digit loop. -/
def decodeBig (input : List Char) : Except HexErr Int :=
  match checkNumber input with
  | .error e => .error e
  | .ok raw =>
    if 64 < raw.length then .error .big256Range
    else
      match parseHexDigits raw with
      | none => .error .badNibbleErr
      | some n => .ok (n : Int)

/-- A single lowercase hex digit, as produced by `big.Int.Text(16)`. -/
def hexDigitChar (d : Nat) : Char :=
  if d < 10 then Char.ofNat ('0'.toNat + d) else Char.ofNat ('a'.toNat + (d - 10))

/-- `big.Int.Text(16)` for a non-negative value: minimal lowercase hex
digits, most significant first (`natToHex 0 = "0"`). -/
def natToHex (n : Nat) : List Char :=
  if _h : n < 16 then [hexDigitChar n]
  else natToHex (n / 16) ++ [hexDigitChar (n % 16)]
termination_by n
decreasing_by exact Nat.div_lt_self (by omega) (by omega)

/-- hexutil `EncodeBig`: `"0x0"` for zero, otherwise the sign followed by
`"0x"` and the minimal hex digits. -/
def encodeBig (x : Int) : List Char :=
  if x = 0 then ['0', 'x', '0']
  else if 0 < x then ['0', 'x'] ++ natToHex x.toNat
  else ['-', '0', 'x'] ++ natToHex x.natAbs

/-- uint256.go `maxByteLength`. -/
def maxByteLength : Nat := 32

/-- uint256.go `maxBitLength`. -/
def maxBitLength : Nat := maxByteLength * 8

/-- uint256.go `Uint256`: a wrapper for `big.Int` representing uint256. -/
structure Uint256 where
  x : Int
deriving DecidableEq, Repr

/-- The error values produced in uint256.go (via `oops`): each constructor
carries the source message it models. -/
inductive Err where
  | xNegative          -- "x must not be negative"
  | xExceedsBits       -- "x must be less than or equal to 256 bits"
  | sMissing0x         -- "s must have 0x prefix"
  | sIs0x              -- "s must not be 0x"
  | hexWrap (e : HexErr) -- oops.Wrap of a hexutil.DecodeBig error
  | srcNil             -- "src must not be nil"
  | srcUnexpectedType  -- "unexpected src type: %T"
  | srcEmpty           -- "src bytes must not be empty"
  | srcTooLong         -- "src bytes must be less than or equal to 32 bytes"
  | bigIntUnmarshalErr -- oops.Wrap of a math/big UnmarshalText error
deriving DecidableEq, Repr

/-- The outcome of a Go call: a value, a returned error, or a runtime panic. -/
inductive GoResult (α : Type) where
  | ok (a : α)
  | err (e : Err)
  | panics
deriving DecidableEq, Repr

/-- uint256.go `(*Uint256).setBigInt`.  A nil `x` is not checked: `x.Sign()`
dereferences the nil pointer and panics.  On success the receiver's field is
assigned (`x256.x = *x`); on error it is left untouched.  The pair returns
the call outcome together with the receiver's state after the call. -/
def setBigInt (x256 : Uint256) (x : Option Int) : GoResult Unit × Uint256 :=
  match x with
  | none => (.panics, x256)
  | some v =>
    if v < 0 then (.err .xNegative, x256)
    else if maxBitLength < bitLen v.toNat then (.err .xExceedsBits, x256)
    else (.ok (), ⟨v⟩)

/-- uint256.go `NewUint256`: zero-value receiver, `setBigInt`, and on error
return the zero `Uint256` together with the error. -/
def NewUint256 (x : Option Int) : GoResult Uint256 :=
  match setBigInt ⟨0⟩ x with
  | (.ok _, x256) => .ok x256
  | (.err e, _) => .err e
  | (.panics, _) => .panics

/-- The zero-stripping loop of uint256.go `setHex`: skip leading `'0'`
characters, and at the first other character append the whole remainder. -/
def stripZeros : List Char → List Char
  | [] => []
  | c :: cs => if c = '0' then stripZeros cs else c :: cs

/-- uint256.go `(*Uint256).setHex`: prefix checks, zero stripping (restoring
a single `'0'` when everything was stripped), `hexutil.DecodeBig`, then
`setBigInt`. -/
def setHex (x256 : Uint256) (s : List Char) : GoResult Unit × Uint256 :=
  if !has0xPrefix s then (.err .sMissing0x, x256)
  else if is0x s then (.err .sIs0x, x256)
  else
    let b0 := ['0', 'x'] ++ stripZeros (s.drop 2)
    let b := if is0x b0 then b0 ++ ['0'] else b0
    match decodeBig b with
    | .error e => (.err (.hexWrap e), x256)
    | .ok x => setBigInt x256 (some x)

/-- uint256.go `NewUint256FromHex`. -/
def NewUint256FromHex (s : List Char) : GoResult Uint256 :=
  match setHex ⟨0⟩ s with
  | (.ok _, x256) => .ok x256
  | (.err e, _) => .err e
  | (.panics, _) => .panics

/-- uint256.go `(Uint256).string`: `ethhexutil.EncodeBig(&x256.x)`. -/
def Uint256.string (x256 : Uint256) : List Char := encodeBig x256.x

/-- uint256.go `(Uint256).String` (fmt.Stringer). -/
def Uint256.String (x256 : Uint256) : List Char := x256.string

/-- uint256.go `(Uint256).MarshalText`: always succeeds with `string()`. -/
def MarshalText (x256 : Uint256) : GoResult (List Char) := .ok x256.string

/-- The dynamic (`any`) value handed to `Scan`: either a `[]byte` (entries
are byte values) or a non-nil value of some other carrier type. -/
inductive ScanSrc where
  | bytes (b : List Nat)
  | otherType
deriving DecidableEq, Repr

/-- `big.Int.SetBytes`: the unsigned big-endian interpretation of a buffer. -/
def bytesToNat (b : List Nat) : Nat := b.foldl (fun a w => a * 256 + w) 0

/-- uint256.go `(*Uint256).Scan`: nil / carrier-type / emptiness / length
checks (in that order, before any interpretation of the bytes), then
`x256.x.SetBytes(b)`. -/
def Scan (x256 : Uint256) (src : Option ScanSrc) : GoResult Unit × Uint256 :=
  match src with
  | none => (.err .srcNil, x256)
  | some .otherType => (.err .srcUnexpectedType, x256)
  | some (.bytes b) =>
    if b.length = 0 then (.err .srcEmpty, x256)
    else if maxByteLength < b.length then (.err .srcTooLong, x256)
    else (.ok (), ⟨(bytesToNat b : Int)⟩)

/-- Decimal digit test (a spec-side predicate used to state the theorems
about plain decimal inputs). -/
def isDigit (c : Char) : Bool := decide ('0' ≤ c) && decide (c ≤ '9')

/-- Base-10 value of a list of decimal digits. -/
def decDigitsVal (ds : List Char) : Nat :=
  ds.foldl (fun a c => a * 10 + (c.toNat - '0'.toNat)) 0

/-- The digit-conversion switch of math/big `nat.scan`: `'0'`–`'9'`, then
lowercase and uppercase letters with value 10 and up (the bases used here
are at most 16, below `maxBaseSmall`); 63 is `MaxBase + 1`, never a valid
digit. -/
def digitVal (c : Char) : Nat :=
  if '0' ≤ c ∧ c ≤ '9' then c.toNat - '0'.toNat
  else if 'a' ≤ c ∧ c ≤ 'z' then c.toNat - 'a'.toNat + 10
  else if 'A' ≤ c ∧ c ≤ 'Z' then c.toNat - 'A'.toNat + 10
  else 63

/-- The `prev` marker of math/big `nat.scan`: the previously seen character
is a digit or the base prefix (`'0'`), an underscore (`'_'`), or anything
else (`'.'`). -/
inductive ScanPrev where
  | other
  | digit
  | underscore
deriving DecidableEq, Repr

/-- The digit loop of math/big `nat.scan` (base argument 0, `fracOk` false)
combined with `setFromScanner`'s whole-input check: an underscore may only
follow a digit or the base prefix; a character that is not a valid digit of
base `b` makes the conversion fail (the scanner unreads it and
`setFromScanner` then finds the input not fully consumed); at the end the
separator check (`invalSep`, trailing `'_'`) and the at-least-one-digit
check (`count`) apply. -/
def scanDigits (b : Nat) : List Char → Nat → Nat → ScanPrev → Bool → Option Nat
  | [], acc, count, prev, invalSep =>
    if invalSep ∨ prev = ScanPrev.underscore then none
    else if count = 0 then none
    else some acc
  | c :: cs, acc, count, prev, invalSep =>
    if c = '_' then
      scanDigits b cs acc count ScanPrev.underscore
        (invalSep || decide (prev ≠ ScanPrev.digit))
    else if digitVal c < b then
      scanDigits b cs (acc * b + digitVal c) (count + 1) ScanPrev.digit invalSep
    else none

/-- math/big `nat.scan` with base argument 0 (as called by
`Int.UnmarshalText` through `setFromScanner`), applied to the input after
the sign: `"0"` alone is 0; a leading `0` followed by `b`/`B`, `o`/`O` or
`x`/`X` selects base 2, 8 or 16 (the prefix counts as a digit for the
separator rule but not for the digit count); any other input starting with
`0` is read in base 8; everything else is read in base 10. -/
def natScanBase0 : List Char → Option Nat
  | [] => none
  | ['0'] => some 0
  | '0' :: c :: cs =>
    if c = 'b' ∨ c = 'B' then scanDigits 2 cs 0 0 ScanPrev.digit false
    else if c = 'o' ∨ c = 'O' then scanDigits 8 cs 0 0 ScanPrev.digit false
    else if c = 'x' ∨ c = 'X' then scanDigits 16 cs 0 0 ScanPrev.digit false
    else scanDigits 8 (c :: cs) 0 0 ScanPrev.digit false
  | u => scanDigits 10 u 0 0 ScanPrev.other false

/-- math/big `(*Int).UnmarshalText`: `setFromScanner(bytes.NewReader(text), 0)`
— an optional `'+'`/`'-'` sign (read by `scanSign`), then the base-0
magnitude scan with the entire input consumed (`-0` normalizes to 0). -/
def bigIntUnmarshalText (text : List Char) : Option Int :=
  match text with
  | '+' :: u => (natScanBase0 u).map (fun n => (n : Int))
  | '-' :: u => (natScanBase0 u).map (fun n => -(n : Int))
  | u => (natScanBase0 u).map (fun n => (n : Int))

/-- uint256.go `(*Uint256).UnmarshalText`: dispatch on `has0xPrefix` (no
trimming of the input), hex via `setHex`, otherwise math/big decimal
parsing followed by `setBigInt`. -/
def UnmarshalText (x256 : Uint256) (text : List Char) : GoResult Unit × Uint256 :=
  if has0xPrefix text then setHex x256 text
  else
    match bigIntUnmarshalText text with
    | none => (.err .bigIntUnmarshalErr, x256)
    | some x => setBigInt x256 (some x)

/-- uint256.go `(*Uint256).UnmarshalJSON`: `b[0]` panics on an empty buffer;
a single `'"'` makes the slice `b[1:len(b)-1]` panic; a quoted token is
unquoted; everything is delegated to `UnmarshalText`. -/
def UnmarshalJSON (x256 : Uint256) (b : List Char) : GoResult Unit × Uint256 :=
  if b.length = 0 then (.panics, x256)
  else
    if b.getD 0 ' ' = '"' ∧ b.getD (b.length - 1) ' ' = '"' then
      if 2 ≤ b.length then UnmarshalText x256 ((b.drop 1).take (b.length - 2))
      else (.panics, x256)
    else UnmarshalText x256 b

/-!
Memory-level model, for the aliasing claims.

Go's `big.Int` is `struct { neg bool; abs []Word }`; a `[]Word` slice is a
header (array pointer, length, capacity) into a heap-allocated backing
array.  Assigning `x256.x = *x` copies the struct — and therefore the slice
header — but shares the backing array.  The heap is a list of word arrays
addressed by index.
-/

namespace Mem

/-- A slice header into the heap (`math/big` `nat = []Word`). -/
structure Slice where
  arr : Nat
  len : Nat
  cap : Nat
deriving DecidableEq, Repr

/-- `big.Int`: sign flag and magnitude slice (little-endian words). -/
structure BInt where
  neg : Bool
  abs : Slice
deriving DecidableEq, Repr

/-- The heap: backing arrays of 64-bit words, addressed by index. -/
structure Heap where
  arrs : List (List Nat)
deriving DecidableEq, Repr

/-- The backing array with index `a` (empty if unallocated). -/
def Heap.get (h : Heap) (a : Nat) : List Nat := h.arrs.getD a []

/-- The words visible through a slice header. -/
def Heap.read (h : Heap) (s : Slice) : List Nat := (h.get s.arr).take s.len

/-- Value of a little-endian word list: `Σ wᵢ · 2^(64·i)`. -/
def wordsVal : List Nat → Nat
  | [] => 0
  | w :: ws => w + 2 ^ 64 * wordsVal ws

/-- The mathematical value of a `big.Int`. -/
def BInt.value (h : Heap) (z : BInt) : Int :=
  if z.neg then -(wordsVal (h.read z.abs) : Int) else (wordsVal (h.read z.abs) : Int)

/-- Allocate a fresh backing array; returns the new heap and array index. -/
def Heap.alloc (h : Heap) (content : List Nat) : Heap × Nat :=
  (⟨h.arrs ++ [content]⟩, h.arrs.length)

/-- Write word `w` at position `i` of array `a`. -/
def Heap.write (h : Heap) (a i w : Nat) : Heap :=
  ⟨h.arrs.set a ((h.get a).set i w)⟩

/-- math/big `nat.make(n)`: reuse the backing array when `n ≤ cap(z)`,
otherwise allocate a fresh array (with the extra capacity `e = 4`). -/
def natMake (h : Heap) (z : Slice) (n : Nat) : Heap × Slice :=
  if n ≤ z.cap then (h, ⟨z.arr, n, z.cap⟩)
  else
    let p := h.alloc (List.replicate (n + 4) 0)
    (p.1, ⟨p.2, n, n + 4⟩)

/-- math/big `nat.setWord`: `z[:0]` for zero, else `make(1)` and an
in-place store of the word — reusing the backing array when it fits. -/
def natSetWord (h : Heap) (z : Slice) (w : Nat) : Heap × Slice :=
  if w = 0 then (h, ⟨z.arr, 0, z.cap⟩)
  else
    let p := natMake h z 1
    (p.1.write p.2.arr 0 w, p.2)

/-- math/big `(*Int).SetInt64` for `|x| < 2^64`: sets the magnitude via
`setWord` (mutating `z` in place) and then the sign flag. -/
def BInt.setInt64 (h : Heap) (z : BInt) (x : Int) : Heap × BInt :=
  let p := natSetWord h z.abs x.natAbs
  (p.1, ⟨decide (x < 0), p.2⟩)

/-- `big.NewInt(x)`: `new(Int).SetInt64(x)`; the fresh `Int` starts with a
nil (zero-capacity) slice. -/
def newInt (h : Heap) (x : Int) : Heap × BInt :=
  BInt.setInt64 h ⟨false, ⟨0, 0, 0⟩⟩ x

/-- uint256.go `Uint256` at the memory level. -/
structure MUint256 where
  x : BInt
deriving DecidableEq, Repr

/-- uint256.go `setBigInt` at the memory level: the sign and bit-length
checks, then `x256.x = *x` — a struct copy whose slice header still points
at the caller's backing array.  `none` is the error outcome. -/
def setBigInt (h : Heap) (x : BInt) : Option MUint256 :=
  if BInt.value h x < 0 then none
  else if maxBitLength < bitLen (BInt.value h x).toNat then none
  else some ⟨x⟩

/-- uint256.go `NewUint256` at the memory level. -/
def NewUint256 (h : Heap) (x : BInt) : Option MUint256 := setBigInt h x

/-- uint256.go `(Uint256).BigInt`: the value receiver is a struct copy and
the method returns `&x256.x` — again sharing the backing array. -/
def MUint256.BigInt (u : MUint256) : BInt := u.x

/-- uint256.go `(Uint256).String` at the memory level. -/
def MUint256.String (h : Heap) (u : MUint256) : List Char :=
  encodeBig (BInt.value h u.x)

end Mem

/-!
Concrete aliasing scenario: `x := big.NewInt(5)` on an empty heap, then
`v := NewUint256(x)`, then an in-place mutation of `x` (resp. of the
`big.Int` returned by `v.BigInt()`).
-/

/-- `big.NewInt(5)` evaluated on the empty heap. -/
def c2alloc : Mem.Heap × Mem.BInt := Mem.newInt ⟨[]⟩ 5

/-- Heap after the allocation of the caller's `big.Int`. -/
def c2h1 : Mem.Heap := c2alloc.1

/-- The caller's `big.Int` (value 5). -/
def c2x : Mem.BInt := c2alloc.2

/-- The `Uint256` produced by `NewUint256(x)` (the struct copy of `x`). -/
def c2v : Mem.MUint256 := ⟨c2x⟩

/-- Heap and caller view after `x.SetInt64(7)`. -/
def c2mut : Mem.Heap × Mem.BInt := Mem.BInt.setInt64 c2h1 c2x 7

/-- The `big.Int` handed out by `v.BigInt()`. -/
def c2r : Mem.BInt := Mem.MUint256.BigInt c2v

/-- Heap after mutating the result of `v.BigInt()` with `SetInt64(9)`. -/
def c2mut2 : Mem.Heap × Mem.BInt := Mem.BInt.setInt64 c2h1 c2r 9

/-!  Helper lemmas about the model. -/

/-- `bitLenAux fuel n` is the exact bit length whenever the fuel suffices:
it is at most `k` iff `n < 2 ^ k`. -/
theorem bitLenAux_le_iff : ∀ fuel n k, n ≤ fuel → (bitLenAux fuel n ≤ k ↔ n < 2 ^ k) := by
  intro fuel
  induction fuel with
  | zero =>
    intro n k hn
    have hn0 : n = 0 := Nat.le_zero.mp hn
    subst hn0
    simp [bitLenAux]
  | succ fuel ih =>
    intro n k hn
    match n with
    | 0 => simp [bitLenAux]
    | m + 1 =>
      cases k with
      | zero =>
        simp only [bitLenAux, pow_zero]
        omega
      | succ k =>
        have hdiv : (m + 1) / 2 ≤ fuel := by omega
        have hih := ih ((m + 1) / 2) k hdiv
        have hd : (m + 1) / 2 < 2 ^ k ↔ m + 1 < 2 ^ k * 2 :=
          Nat.div_lt_iff_lt_mul (by omega)
        simp only [bitLenAux, pow_succ]
        omega

/-- `big.Int.BitLen` characterization: `bitLen n ≤ k ↔ n < 2 ^ k`. -/
theorem bitLen_le_iff (n k : Nat) : bitLen n ≤ k ↔ n < 2 ^ k :=
  bitLenAux_le_iff n n k le_rfl

/-- The over-256-bits test of `setBigInt`, characterized arithmetically. -/
theorem bitLen_gt_iff (n : Nat) : maxBitLength < bitLen n ↔ 2 ^ 256 ≤ n := by
  have h := bitLen_le_iff n 256
  simp only [maxBitLength, maxByteLength]
  omega

/-- `natToHex` never returns the empty list. -/
theorem natToHex_ne_nil (n : Nat) : natToHex n ≠ [] := by
  rw [natToHex.eq_def]
  split <;> simp

/-- `decodeNibble` inverts `hexDigitChar` on nibble values. -/
theorem decodeNibble_hexDigitChar (d : Nat) (hd : d < 16) :
    decodeNibble (hexDigitChar d) = d := by
  interval_cases d <;> decide

/-- A nonzero nibble never renders as the digit `'0'`. -/
theorem hexDigitChar_ne_zero (d : Nat) (h1 : 0 < d) (h2 : d < 16) :
    hexDigitChar d ≠ '0' := by
  interval_cases d <;> decide

/-- Lowercase hex digit class: `0`–`9` or `a`–`f`. -/
def isLowerHexDigit (c : Char) : Bool :=
  isDigit c || (decide ('a' ≤ c) && decide (c ≤ 'f'))

/-- Every nibble renders as a lowercase hex digit. -/
theorem hexDigitChar_isLowerHex (d : Nat) (hd : d < 16) :
    isLowerHexDigit (hexDigitChar d) = true := by
  interval_cases d <;> decide

/-- For a positive value, the leading hex digit is not `'0'`. -/
theorem natToHex_head_ne_zero : ∀ n, 0 < n → (natToHex n).headD ' ' ≠ '0' := by
  intro n
  induction n using Nat.strong_induction_on with
  | _ n ih =>
    intro hn
    rw [natToHex.eq_def]
    split
    · next h => simpa using hexDigitChar_ne_zero n hn h
    · next h =>
      have hdivpos : 0 < n / 16 := Nat.div_pos (by omega) (by omega)
      have hne := natToHex_ne_nil (n / 16)
      have hhead := ih (n / 16) (Nat.div_lt_self hn (by omega)) hdivpos
      cases hx : natToHex (n / 16) with
      | nil => exact absurd hx hne
      | cons a t =>
        rw [hx] at hhead
        simpa using hhead

/-- Every character of `natToHex n` is a lowercase hex digit. -/
theorem natToHex_isLowerHex : ∀ n c, c ∈ natToHex n → isLowerHexDigit c = true := by
  intro n
  induction n using Nat.strong_induction_on with
  | _ n ih =>
    intro c hc
    rw [natToHex.eq_def] at hc
    split at hc
    · next h =>
      simp only [List.mem_singleton] at hc
      subst hc
      exact hexDigitChar_isLowerHex n h
    · next h =>
      rcases List.mem_append.mp hc with h1 | h2
      · exact ih (n / 16) (Nat.div_lt_self (by omega) (by omega)) c h1
      · simp only [List.mem_singleton] at h2
        subst h2
        exact hexDigitChar_isLowerHex (n % 16) (by omega)

/-- `n < 16 ^ (k + 1)` values need at most `k + 1` hex digits. -/
theorem natToHex_length_le : ∀ k n, n < 16 ^ (k + 1) → (natToHex n).length ≤ k + 1 := by
  intro k
  induction k with
  | zero =>
    intro n hn
    rw [natToHex.eq_def]
    split
    · simp
    · next h =>
      simp at hn
      omega
  | succ k ih =>
    intro n hn
    rw [natToHex.eq_def]
    split
    · simp
    · next h =>
      have hd : n / 16 < 16 ^ (k + 1) := by
        have hlt : n < 16 ^ (k + 1) * 16 := by
          calc n < 16 ^ (k + 1 + 1) := hn
          _ = 16 ^ (k + 1) * 16 := by rw [pow_succ]
        exact (Nat.div_lt_iff_lt_mul (by omega)).mpr hlt
      have := ih (n / 16) hd
      simp only [List.length_append, List.length_singleton]
      omega

/-- Folding the `DecodeBig` digit loop over `natToHex n` from accumulator
`a` yields `a` shifted past the digits, plus `n`. -/
theorem foldl_hexStep_natToHex :
    ∀ n a, (natToHex n).foldl hexStep (some a) =
      some (a * 16 ^ (natToHex n).length + n) := by
  intro n
  induction n using Nat.strong_induction_on with
  | _ n ih =>
    intro a
    rw [natToHex.eq_def]
    split
    · next h =>
      have hnib := decodeNibble_hexDigitChar n h
      have hne : ¬ (n = badNibble) := by
        simp only [badNibble]
        omega
      simp [List.foldl, hexStep, hnib, hne]
    · next h =>
      rw [List.foldl_append]
      rw [ih (n / 16) (Nat.div_lt_self (by omega) (by omega)) a]
      have hnib := decodeNibble_hexDigitChar (n % 16) (by omega)
      have hne : ¬ (n % 16 = badNibble) := by
        simp only [badNibble]
        omega
      simp only [List.foldl, hexStep, hnib, if_neg hne, List.length_append,
        List.length_singleton, pow_succ]
      congr 1
      ring_nf
      omega

/-- The `DecodeBig` digit loop inverts `big.Int.Text(16)`. -/
theorem parseHexDigits_natToHex (n : Nat) : parseHexDigits (natToHex n) = some n := by
  unfold parseHexDigits
  rw [foldl_hexStep_natToHex n 0]
  simp

/-- The stripping loop of `setHex` removes any run of leading zeros. -/
theorem stripZeros_replicate_append (k : Nat) (d : List Char) :
    stripZeros (List.replicate k '0' ++ d) = stripZeros d := by
  induction k with
  | zero => rfl
  | succ k ih => simpa [List.replicate_succ, stripZeros] using ih

/-- The stripping loop keeps a list whose head is not `'0'` intact. -/
theorem stripZeros_of_head_ne (d : List Char) (hd : d.headD ' ' ≠ '0') :
    stripZeros d = d := by
  cases d with
  | nil => rfl
  | cons c t =>
    simp only [List.headD_cons] at hd
    simp [stripZeros, hd]

/-- `getD 0` is the default-valued head. -/
theorem getD_zero_eq_headD (d : List Char) : d.getD 0 ' ' = d.headD ' ' := by
  cases d <;> rfl

/-- bigutil's `has0xPrefix` holds on any `"0x…"` string. -/
theorem has0xPrefix_cons (t : List Char) : has0xPrefix ('0' :: 'x' :: t) = true := by
  simp [has0xPrefix, is0x]

/-- hexutil's prefix test holds on any `"0x…"` string. -/
theorem ethHas0xPrefix_cons (t : List Char) : ethHas0xPrefix ('0' :: 'x' :: t) = true := by
  simp [ethHas0xPrefix]

/-- `is0x` on a `"0x…"` string just tests emptiness of the tail. -/
theorem is0x_cons (t : List Char) : is0x ('0' :: 'x' :: t) = decide (t = []) := by
  cases t <;> simp [is0x]

/-- hexutil `checkNumber` accepts a `0x`-prefixed string with a non-empty
digit portion that does not start with `'0'`, and returns the digits. -/
theorem checkNumber_cons (d : List Char) (hne : d ≠ []) (hgd : d.getD 0 ' ' ≠ '0') :
    checkNumber ('0' :: 'x' :: d) = .ok d := by
  have hdrop : ('0' :: 'x' :: d).drop 2 = d := rfl
  have hlen0 : ¬ (('0' :: 'x' :: d).length = 0) := by simp
  have hdne : ¬ (d.length = 0) := by simpa using hne
  have hlz : ¬ (1 < d.length ∧ d.getD 0 ' ' = '0') := fun hcl => hgd hcl.2
  unfold checkNumber
  rw [if_neg hlen0, ethHas0xPrefix_cons]
  simp only [Bool.not_true, Bool.false_eq_true, if_false, hdrop]
  rw [if_neg hdne, if_neg hlz]

/-- hexutil `DecodeBig` on a well-formed `0x`-prefixed input: at most 64
digits, leading digit not `'0'`, digits parsing to `n`. -/
theorem decodeBig_cons_ok (d : List Char) (n : Nat) (hne : d ≠ [])
    (hgd : d.getD 0 ' ' ≠ '0') (hlen : d.length ≤ 64)
    (hparse : parseHexDigits d = some n) :
    decodeBig ('0' :: 'x' :: d) = .ok (n : Int) := by
  have h64 : ¬ (64 < d.length) := by omega
  unfold decodeBig
  rw [checkNumber_cons d hne hgd]
  simp only [if_neg h64, hparse]

/-- uint256.go `setHex` on a well-formed `0x`-prefixed input (non-empty
digits, no leading zero digit, at most 64 digits, value below `2 ^ 256`):
it succeeds and stores the parsed value. -/
theorem setHex_cons_ok (x256 : Uint256) (d : List Char) (n : Nat) (hne : d ≠ [])
    (hhead : d.headD ' ' ≠ '0') (hlen : d.length ≤ 64)
    (hparse : parseHexDigits d = some n) (hn : n < 2 ^ 256) :
    setHex x256 ('0' :: 'x' :: d) = (GoResult.ok (), ⟨(n : Int)⟩) := by
  have hgd : d.getD 0 ' ' ≠ '0' := by rw [getD_zero_eq_headD]; exact hhead
  have hdrop : ('0' :: 'x' :: d).drop 2 = d := rfl
  have hstrip : stripZeros d = d := stripZeros_of_head_ne d hhead
  have his : is0x ('0' :: 'x' :: d) = false := by
    rw [is0x_cons]
    simpa using hne
  have hnneg : ¬ ((n : Int) < 0) := by omega
  have hbits : ¬ (maxBitLength < bitLen (n : Int).toNat) := by
    have h1 : (n : Int).toNat = n := by omega
    rw [h1, bitLen_gt_iff]
    omega
  unfold setHex
  rw [has0xPrefix_cons]
  simp only [Bool.not_true, Bool.false_eq_true, if_false, hdrop, hstrip,
    List.cons_append, List.nil_append, his]
  rw [decodeBig_cons_ok d n hne hgd hlen hparse]
  simp only [setBigInt, if_neg hnneg, if_neg hbits]

/-!  Claim C1. -/

/-- C1 counterexample: on nil input `NewUint256` panics (the unchecked
`x.Sign()` dereferences the nil pointer) instead of returning an error, so
the constructor does not "return an error" for an absent input. -/
theorem C1_counterexample : NewUint256 none = GoResult.panics := rfl

/-- C1 (amended): for a present (non-nil) input `x`, `NewUint256` succeeds
storing exactly `x` iff `0 ≤ x < 2 ^ 256` (in particular at `2 ^ 256 - 1`),
and returns an error iff `x` is negative or at least `2 ^ 256`; on a nil
input it panics rather than returning an error. -/
theorem C1thm (x : Int) :
    NewUint256 none = GoResult.panics ∧
    (NewUint256 (some x) = GoResult.ok ⟨x⟩ ↔ 0 ≤ x ∧ x < 2 ^ 256) ∧
    ((∃ e, NewUint256 (some x) = GoResult.err e) ↔ x < 0 ∨ 2 ^ 256 ≤ x) := by
  have hbit := bitLen_gt_iff x.toNat
  have hcast : ((2 ^ 256 : Nat) : Int) = 2 ^ 256 := by norm_cast
  refine ⟨rfl, ?_, ?_⟩
  · by_cases hneg : x < 0
    · have hx : ¬ (0 ≤ x ∧ x < 2 ^ 256) := by omega
      simp only [NewUint256, setBigInt, if_pos hneg]
      exact iff_of_false (by simp) hx
    · by_cases hbig : maxBitLength < bitLen x.toNat
      · have hx : ¬ (0 ≤ x ∧ x < 2 ^ 256) := by omega
        simp only [NewUint256, setBigInt, if_neg hneg, if_pos hbig]
        exact iff_of_false (by simp) hx
      · have hx : 0 ≤ x ∧ x < 2 ^ 256 := by omega
        simp only [NewUint256, setBigInt, if_neg hneg, if_neg hbig]
        exact iff_of_true (by simp) hx
  · by_cases hneg : x < 0
    · simp only [NewUint256, setBigInt, if_pos hneg]
      exact ⟨fun _ => Or.inl hneg, fun _ => ⟨.xNegative, rfl⟩⟩
    · by_cases hbig : maxBitLength < bitLen x.toNat
      · simp only [NewUint256, setBigInt, if_neg hneg, if_pos hbig]
        exact ⟨fun _ => Or.inr (by omega), fun _ => ⟨.xExceedsBits, rfl⟩⟩
      · simp only [NewUint256, setBigInt, if_neg hneg, if_neg hbig]
        constructor
        · rintro ⟨e, he⟩
          exact absurd he (by simp)
        · intro hor
          exact absurd hor (by omega)

/-!  Claim C2. -/

/-- C2 counterexample: with `x := big.NewInt(5)` and `v, _ := NewUint256(x)`,
the caller's mutation `x.SetInt64(7)` changes the value observed through `v`
from 5 to 7, and mutating the `big.Int` returned by `v.BigInt()` with
`SetInt64(9)` changes it to 9: construction and the accessor share the
internal word array instead of handing out independent storage. -/
theorem C2_counterexample :
    Mem.NewUint256 c2h1 c2x = some c2v ∧
    Mem.BInt.value c2h1 c2v.x = 5 ∧
    Mem.BInt.value c2mut.1 c2v.x = 7 ∧
    ¬ Mem.BInt.value c2mut.1 c2v.x = 5 ∧
    Mem.BInt.value c2mut2.1 c2v.x = 9 := by decide

/-- C2 (amended): a successful `NewUint256` copies only the `big.Int`
struct, so the stored value initially equals the input's value but its
slice header still points at the caller's backing array, and `BigInt()`
returns the same struct again — so in-place mutation of either side that
reuses the backing array is visible through the other. -/
theorem C2thm (h : Mem.Heap) (x : Mem.BInt) (u : Mem.MUint256)
    (hok : Mem.NewUint256 h x = some u) :
    u.x = x ∧ u.x.abs.arr = x.abs.arr ∧
    Mem.BInt.value h u.x = Mem.BInt.value h x ∧
    Mem.MUint256.BigInt u = u.x := by
  unfold Mem.NewUint256 Mem.setBigInt at hok
  split at hok
  · exact absurd hok (by simp)
  · split at hok
    · exact absurd hok (by simp)
    · injection hok with h1
      subst h1
      exact ⟨rfl, rfl, rfl, rfl⟩

/-- Witness for C2: the amended theorem applied to the concrete scenario. -/
theorem C2thm_witness :
    Mem.NewUint256 c2h1 c2x = some c2v ∧ c2v.x = c2x ∧ c2v.x.abs.arr = c2x.abs.arr := by
  refine ⟨by decide, ?_, ?_⟩
  · exact (C2thm c2h1 c2x c2v (by decide)).1
  · exact (C2thm c2h1 c2x c2v (by decide)).2.1

/-!  Claim C3. -/

/-- `natToHex` of a value below `2 ^ 256` has at most 64 digits. -/
theorem natToHex_length_le64 (n : Nat) (hn : n < 2 ^ 256) :
    (natToHex n).length ≤ 64 := by
  have h16 : (16 : Nat) ^ (63 + 1) = 2 ^ 256 := by norm_num
  have h := natToHex_length_le 63 n (by omega)
  omega

/-- C3: hex round-trip: for every magnitude `n` in `[0, 2 ^ 256 - 1]`,
decoding the hex encoding of the `Uint256` holding `n` succeeds and returns
the same value, i.e. `NewUint256FromHex (v.String())` returns `v`. -/
theorem C3thm (n : Nat) (hn : n < 2 ^ 256) :
    NewUint256FromHex (Uint256.string ⟨(n : Int)⟩) = GoResult.ok ⟨(n : Int)⟩ := by
  by_cases h0 : n = 0
  · subst h0
    decide
  · have hpos : 0 < n := Nat.pos_of_ne_zero h0
    have hx0 : ¬ ((n : Int) = 0) := by omega
    have hxpos : (0 : Int) < (n : Int) := by omega
    have htn : ((n : Int)).toNat = n := by omega
    have hstr : Uint256.string ⟨(n : Int)⟩ = '0' :: 'x' :: natToHex n := by
      unfold Uint256.string encodeBig
      rw [if_neg hx0, if_pos hxpos, htn]
      rfl
    rw [hstr]
    unfold NewUint256FromHex
    rw [setHex_cons_ok ⟨0⟩ (natToHex n) n (natToHex_ne_nil n)
      (natToHex_head_ne_zero n hpos) (natToHex_length_le64 n hn)
      (parseHexDigits_natToHex n) hn]

/-- Witness for C3 at `n = 5`. -/
theorem C3thm_witness :
    (5 : Nat) < 2 ^ 256 ∧
    NewUint256FromHex (Uint256.string ⟨((5 : Nat) : Int)⟩) =
      GoResult.ok ⟨((5 : Nat) : Int)⟩ :=
  ⟨by norm_num, C3thm 5 (by norm_num)⟩

/-!  Claim C4. -/

/-- C4 counterexample: the prefix test of hex decoding is case-sensitive:
`"0x1"` decodes to 1 but `"0X1"` is rejected with the missing-prefix error,
so a leading `0x` and a leading `0X` are not treated identically. -/
theorem C4_counterexample :
    NewUint256FromHex ['0', 'x', '1'] = GoResult.ok ⟨1⟩ ∧
    NewUint256FromHex ['0', 'X', '1'] = GoResult.err Err.sMissing0x := by decide

/-- C4 (amended): hex decoding accepts only the lowercase `0x` prefix: any
`0X`-prefixed string fails with the missing-prefix error (whatever follows),
as does any string without the `0x` prefix; the exact string `"0x"` fails
with the empty-hex error, while `"0X"` fails with the missing-prefix error. -/
theorem C4thm (s t : List Char) (h : has0xPrefix s = false) :
    NewUint256FromHex ('0' :: 'X' :: t) = GoResult.err Err.sMissing0x ∧
    NewUint256FromHex s = GoResult.err Err.sMissing0x ∧
    NewUint256FromHex ['0', 'x'] = GoResult.err Err.sIs0x ∧
    NewUint256FromHex ['0', 'X'] = GoResult.err Err.sMissing0x := by
  refine ⟨?_, ?_, by decide, by decide⟩
  · have htake : ('0' :: 'X' :: t).take 2 = ['0', 'X'] := rfl
    have hp : has0xPrefix ('0' :: 'X' :: t) = false := by
      simp [has0xPrefix, is0x, htake]
    unfold NewUint256FromHex setHex
    rw [hp]
    rfl
  · unfold NewUint256FromHex setHex
    rw [h]
    rfl

/-- Witness for C4 with the prefix-free input `"z"`. -/
theorem C4thm_witness :
    has0xPrefix ['z'] = false ∧
    NewUint256FromHex ['0', 'X', '1'] = GoResult.err Err.sMissing0x ∧
    NewUint256FromHex ['z'] = GoResult.err Err.sMissing0x := by
  have h := C4thm ['z'] ['1'] (by decide)
  exact ⟨by decide, h.1, h.2.1⟩

/-!  Claim C5. -/

/-- C5: hex decoding strips all leading zero digits: an all-zero digit
string of any positive length decodes to 0 (the emptied magnitude is mapped
back to the single digit `0`, not an error), prepending any number of zero
digits to a digit string never changes the decode result, and in particular
`"0x00000001"` decodes to 1 and `"0x"` followed by 64 zero digits decodes
to 0. -/
theorem C5thm (k : Nat) (d : List Char) (hk : 0 < k) (hd : d ≠ []) :
    NewUint256FromHex ('0' :: 'x' :: List.replicate k '0') = GoResult.ok ⟨0⟩ ∧
    NewUint256FromHex ('0' :: 'x' :: (List.replicate k '0' ++ d)) =
      NewUint256FromHex ('0' :: 'x' :: d) ∧
    NewUint256FromHex ['0', 'x', '0', '0', '0', '0', '0', '0', '0', '1'] =
      GoResult.ok ⟨1⟩ ∧
    NewUint256FromHex ('0' :: 'x' :: List.replicate 64 '0') = GoResult.ok ⟨0⟩ := by
  refine ⟨?_, ?_, by decide, by decide⟩
  · have hrep : List.replicate k '0' ≠ [] := by
      simp only [ne_eq, List.replicate_eq_nil_iff]
      omega
    have hstrip : stripZeros (List.replicate k '0') = [] := by
      have h := stripZeros_replicate_append k []
      simpa using h
    have his : is0x ('0' :: 'x' :: List.replicate k '0') = false := by
      rw [is0x_cons]
      simpa using hrep
    have hdrop : ('0' :: 'x' :: List.replicate k '0').drop 2 = List.replicate k '0' := rfl
    unfold NewUint256FromHex setHex
    rw [has0xPrefix_cons]
    simp only [Bool.not_true, Bool.false_eq_true, if_false, his, hdrop, hstrip,
      List.append_nil]
    rfl
  · have hd0 : stripZeros (List.replicate k '0' ++ d) = stripZeros d :=
      stripZeros_replicate_append k d
    have hrepne : List.replicate k '0' ++ d ≠ [] := by simp [hd]
    have his1 : is0x ('0' :: 'x' :: (List.replicate k '0' ++ d)) = false := by
      rw [is0x_cons]
      simpa using hrepne
    have his2 : is0x ('0' :: 'x' :: d) = false := by
      rw [is0x_cons]
      simpa using hd
    have hdrop1 : ('0' :: 'x' :: (List.replicate k '0' ++ d)).drop 2 =
        List.replicate k '0' ++ d := rfl
    have hdrop2 : ('0' :: 'x' :: d).drop 2 = d := rfl
    unfold NewUint256FromHex setHex
    rw [has0xPrefix_cons, has0xPrefix_cons]
    simp only [Bool.not_true, Bool.false_eq_true, if_false, his1, his2,
      hdrop1, hdrop2, hd0]

/-- Witness for C5 with two leading zeros in front of the digit `f`. -/
theorem C5thm_witness :
    0 < 2 ∧ (['f'] : List Char) ≠ [] ∧
    NewUint256FromHex ('0' :: 'x' :: (List.replicate 2 '0' ++ ['f'])) =
      NewUint256FromHex ('0' :: 'x' :: ['f']) := by
  refine ⟨by decide, by decide, ?_⟩
  exact (C5thm 2 ['f'] (by decide) (by decide)).2.1


/-!  Claim C6. -/

/-- Prepending zero bytes does not change the big-endian value. -/
theorem bytesToNat_replicate_zero (k : Nat) (b : List Nat) :
    bytesToNat (List.replicate k 0 ++ b) = bytesToNat b := by
  induction k with
  | zero => rfl
  | succ k ih =>
    rw [List.replicate_succ, List.cons_append]
    unfold bytesToNat at ih ⊢
    simpa using ih

/-- C6: `Scan` fails on a nil source, on a non-`[]byte` carrier, on the
empty buffer, and on any buffer longer than 32 bytes (the length check
comes before any interpretation of the bytes, so leading zero bytes do not
help); on a buffer of 1 to 32 bytes it succeeds and stores the unsigned
big-endian value of the bytes, on which leading zero bytes have no effect. -/
theorem C6thm (x256 : Uint256) (k : Nat) (b zb : List Nat) (hb : b ≠ [])
    (hlen : b.length ≤ 32) (hzb : 32 < zb.length) :
    (Scan x256 none).1 = GoResult.err Err.srcNil ∧
    (Scan x256 (some ScanSrc.otherType)).1 = GoResult.err Err.srcUnexpectedType ∧
    (Scan x256 (some (ScanSrc.bytes []))).1 = GoResult.err Err.srcEmpty ∧
    (Scan x256 (some (ScanSrc.bytes zb))).1 = GoResult.err Err.srcTooLong ∧
    Scan x256 (some (ScanSrc.bytes b)) = (GoResult.ok (), ⟨(bytesToNat b : Int)⟩) ∧
    bytesToNat (List.replicate k 0 ++ b) = bytesToNat b := by
  refine ⟨rfl, rfl, rfl, ?_, ?_, bytesToNat_replicate_zero k b⟩
  · have h0 : ¬ (zb.length = 0) := by omega
    have h1 : maxByteLength < zb.length := hzb
    simp only [Scan, if_neg h0, if_pos h1]
  · have h0 : ¬ (b.length = 0) := by
      simpa using hb
    have h1 : ¬ (maxByteLength < b.length) := by
      show ¬ (32 < b.length)
      omega
    simp only [Scan, if_neg h0, if_neg h1]

/-- Witness for C6 with the buffer `[0x01]` and a 33-byte all-zero buffer. -/
theorem C6thm_witness :
    ([1] : List Nat) ≠ [] ∧ ([1] : List Nat).length ≤ 32 ∧
    32 < (List.replicate 33 (0 : Nat)).length ∧
    Scan ⟨0⟩ (some (ScanSrc.bytes [1])) = (GoResult.ok (), ⟨(bytesToNat [1] : Int)⟩) ∧
    (Scan ⟨0⟩ (some (ScanSrc.bytes (List.replicate 33 (0 : Nat))))).1 =
      GoResult.err Err.srcTooLong := by
  have h := C6thm ⟨0⟩ 2 [1] (List.replicate 33 (0 : Nat)) (by decide) (by decide)
    (by decide)
  exact ⟨by decide, by decide, by decide, h.2.2.2.2.1, h.2.2.2.1⟩

/-!  Claim C7. -/

/-- C7 counterexample: `UnmarshalJSON` on the empty token buffer panics
(index out of range on `b[0]`) instead of failing with an error. -/
theorem C7_counterexample : (UnmarshalJSON ⟨0⟩ []).1 = GoResult.panics := by decide

/-- C7 (amended): on an empty token buffer `UnmarshalJSON` panics rather
than returning an error; on the JSON `null` literal it fails with an error
(the literal reaches the decimal parser and is rejected), neither panicking
nor succeeding. -/
theorem C7thm (x256 : Uint256) :
    (UnmarshalJSON x256 []).1 = GoResult.panics ∧
    (UnmarshalJSON x256 ['n', 'u', 'l', 'l']).1 = GoResult.err Err.bigIntUnmarshalErr := by
  exact ⟨rfl, rfl⟩

/-!  Claim C8. -/

/-- A decimal digit is not an `'x'`, a sign, a space, or an underscore. -/
theorem isDigit_ne (c : Char) (h : isDigit c = true) :
    c ≠ 'x' ∧ c ≠ '+' ∧ c ≠ '-' ∧ c ≠ ' ' ∧ c ≠ '_' := by
  refine ⟨?_, ?_, ?_, ?_, ?_⟩ <;> (rintro rfl; exact absurd h (by decide))

/-- `Char.toNat` is monotone with respect to the character order. -/
theorem char_toNat_le_of_le (a b : Char) (h : a ≤ b) : a.toNat ≤ b.toNat :=
  BitVec.le_def.mp (UInt32.le_def.mp (Char.le_def.mp h))

/-- On a decimal digit, `digitVal` is the digit's value, below 10. -/
theorem isDigit_digitVal (c : Char) (h : isDigit c = true) :
    digitVal c = c.toNat - '0'.toNat ∧ digitVal c < 10 := by
  unfold isDigit at h
  simp only [Bool.and_eq_true, decide_eq_true_eq] at h
  have h9 : c.toNat ≤ '9'.toNat := char_toNat_le_of_le c '9' h.2
  have h9v : ('9' : Char).toNat = 57 := rfl
  have h0v : ('0' : Char).toNat = 48 := rfl
  unfold digitVal
  rw [if_pos h]
  exact ⟨rfl, by omega⟩

/-- A one-character string never has the `0x` prefix. -/
theorem has0xPrefix_single (c : Char) : has0xPrefix [c] = false := by
  simp [has0xPrefix]

/-- A string whose first character is not `'0'` has no `0x` prefix. -/
theorem has0xPrefix_head_ne (c : Char) (t : List Char) (hc : c ≠ '0') :
    has0xPrefix (c :: t) = false := by
  have htake : (c :: t).take 2 = c :: t.take 1 := rfl
  simp [has0xPrefix, is0x, htake, hc]

/-- A string whose second character is not `'x'` has no `0x` prefix. -/
theorem has0xPrefix_second_ne (c1 c2 : Char) (t : List Char) (hc : c2 ≠ 'x') :
    has0xPrefix (c1 :: c2 :: t) = false := by
  have htake : (c1 :: c2 :: t).take 2 = [c1, c2] := rfl
  simp [has0xPrefix, is0x, htake, hc]

/-- On an input whose head is neither a sign character, the scanner goes
straight to the magnitude scan. -/
theorem bigIntUnmarshalText_nosign (c : Char) (t : List Char)
    (hcp : c ≠ '+') (hcm : c ≠ '-') :
    bigIntUnmarshalText (c :: t) = (natScanBase0 (c :: t)).map (fun n => (n : Int)) := by
  unfold bigIntUnmarshalText
  split
  · next u heq =>
    injection heq with hhead _
    exact absurd hhead hcp
  · next u heq =>
    injection heq with hhead _
    exact absurd hhead hcm
  · rfl

/-- On an input whose head is not `'0'`, the base-0 scan is a plain
base-10 scan. -/
theorem natScanBase0_decimal (c : Char) (t : List Char) (hc0 : c ≠ '0') :
    natScanBase0 (c :: t) = scanDigits 10 (c :: t) 0 0 ScanPrev.other false := by
  unfold natScanBase0
  split
  · next heq => exact absurd heq (by simp)
  · next heq =>
    injection heq with hhead _
    exact absurd hhead hc0
  · next c2 cs2 heq =>
    injection heq with hhead _
    exact absurd hhead hc0
  · rfl

/-- The base-10 digit loop on a non-empty all-digit input computes the
decimal value on top of the accumulator, whatever the count and marker. -/
theorem scanDigits_digits :
    ∀ (ds : List Char), ds ≠ [] → ds.all isDigit = true →
    ∀ acc count prev, scanDigits 10 ds acc count prev false =
      some (ds.foldl (fun a c => a * 10 + (c.toNat - '0'.toNat)) acc) := by
  intro ds
  induction ds with
  | nil => intro hne; exact absurd rfl hne
  | cons c cs ih =>
    intro _ hds acc count prev
    simp only [List.all_cons, Bool.and_eq_true] at hds
    obtain ⟨hc, hcs⟩ := hds
    have hund : c ≠ '_' := (isDigit_ne c hc).2.2.2.2
    have hdv := isDigit_digitVal c hc
    rw [scanDigits]
    rw [if_neg hund, if_pos (show digitVal c < 10 from hdv.2)]
    cases cs with
    | nil =>
      rw [scanDigits]
      simp [hdv.1]
    | cons c2 cs2 =>
      rw [ih (by simp) hcs (acc * 10 + digitVal c) (count + 1) ScanPrev.digit]
      simp [hdv.1]

/-- The base-10 digit loop fails on any all-digit input followed by a
space: the space is not a digit and the input is not fully consumed. -/
theorem scanDigits_digits_space :
    ∀ (ds : List Char), ds.all isDigit = true →
    ∀ acc count prev, scanDigits 10 (ds ++ [' ']) acc count prev false = none := by
  intro ds
  induction ds with
  | nil => intro _ acc count prev; rfl
  | cons c cs ih =>
    intro hds acc count prev
    simp only [List.all_cons, Bool.and_eq_true] at hds
    obtain ⟨hc, hcs⟩ := hds
    have hund : c ≠ '_' := (isDigit_ne c hc).2.2.2.2
    have hdv := isDigit_digitVal c hc
    rw [List.cons_append, scanDigits]
    rw [if_neg hund, if_pos (show digitVal c < 10 from hdv.2)]
    exact ih hcs (acc * 10 + digitVal c) (count + 1) ScanPrev.digit

/-- math/big `UnmarshalText` on a non-empty all-digit input that does not
start with `'0'`: the plain decimal value. -/
theorem bigIntUnmarshalText_digits (ds : List Char) (h1 : ds ≠ [])
    (h0 : ds.headD ' ' ≠ '0') (h2 : ds.all isDigit = true) :
    bigIntUnmarshalText ds = some ((decDigitsVal ds : Nat) : Int) := by
  match ds, h1, h0, h2 with
  | c :: t, _, h0, h2 =>
    have hc : isDigit c = true := by
      simp only [List.all_cons, Bool.and_eq_true] at h2
      exact h2.1
    have hc0 : c ≠ '0' := by simpa using h0
    rw [bigIntUnmarshalText_nosign c t (isDigit_ne c hc).2.1 (isDigit_ne c hc).2.2.1]
    rw [natScanBase0_decimal c t hc0]
    rw [scanDigits_digits (c :: t) (by simp) h2 0 0 ScanPrev.other]
    simp [decDigitsVal]

/-- C8 counterexample: a decimal literal surrounded by spaces does not
decode (nothing is trimmed), and a non-hex input is not decoded as decimal:
`"017"` decodes to octal 15, not 17. -/
theorem C8_counterexample :
    (UnmarshalText ⟨0⟩ [' ', '1', ' ']).1 = GoResult.err Err.bigIntUnmarshalErr ∧
    UnmarshalText ⟨0⟩ ['0', '1', '7'] = (GoResult.ok (), ⟨15⟩) := by decide

/-- C8 (amended): `UnmarshalText` does not trim surrounding whitespace and
dispatches on the case-sensitive lowercase `0x` prefix to the strict hex
decoder; every other input goes to math/big's base-0 integer-literal
parser, so a plain decimal digit string (no leading zero) decodes to its
decimal value, the same digits with a leading or trailing space fail,
`"0X1"` still decodes to 1 (the base-0 scanner detects the hex prefix
itself), `"017"` decodes as octal to 15, and `"09"` fails. -/
theorem C8thm (x256 : Uint256) (ds t rest : List Char) (h1 : ds ≠ [])
    (h0 : ds.headD ' ' ≠ '0') (h2 : ds.all isDigit = true)
    (h3 : decDigitsVal ds < 2 ^ 256) :
    UnmarshalText x256 ds = (GoResult.ok (), ⟨(decDigitsVal ds : Int)⟩) ∧
    (UnmarshalText x256 (' ' :: t)).1 = GoResult.err Err.bigIntUnmarshalErr ∧
    (UnmarshalText x256 (ds ++ [' '])).1 = GoResult.err Err.bigIntUnmarshalErr ∧
    UnmarshalText x256 ('0' :: 'x' :: rest) = setHex x256 ('0' :: 'x' :: rest) ∧
    UnmarshalText x256 ['0', 'X', '1'] = (GoResult.ok (), ⟨1⟩) ∧
    UnmarshalText x256 ['0', '1', '7'] = (GoResult.ok (), ⟨15⟩) ∧
    (UnmarshalText x256 ['0', '9']).1 = GoResult.err Err.bigIntUnmarshalErr := by
  refine ⟨?_, ?_, ?_, ?_, rfl, rfl, rfl⟩
  · have hpre : has0xPrefix ds = false := by
      match ds, h1, h2 with
      | [c], _, _ => exact has0xPrefix_single c
      | c1 :: c2 :: t2, _, h2 =>
        have hc2 : isDigit c2 = true := by
          simp only [List.all_cons, Bool.and_eq_true] at h2
          exact h2.2.1
        exact has0xPrefix_second_ne c1 c2 t2 (isDigit_ne c2 hc2).1
    have hnneg : ¬ ((decDigitsVal ds : Int) < 0) := by omega
    have hbits : ¬ (maxBitLength < bitLen ((decDigitsVal ds : Int)).toNat) := by
      have ht : ((decDigitsVal ds : Int)).toNat = decDigitsVal ds := by omega
      rw [ht, bitLen_gt_iff]
      omega
    unfold UnmarshalText
    rw [hpre]
    simp only [Bool.false_eq_true, if_false]
    rw [bigIntUnmarshalText_digits ds h1 h0 h2]
    simp only [setBigInt, if_neg hnneg, if_neg hbits]
  · have hpre : has0xPrefix (' ' :: t) = false :=
      has0xPrefix_head_ne ' ' t (by decide)
    have hparse : bigIntUnmarshalText (' ' :: t) = none := rfl
    unfold UnmarshalText
    rw [hpre]
    simp only [Bool.false_eq_true, if_false]
    rw [hparse]
  · have hpre : has0xPrefix (ds ++ [' ']) = false := by
      match ds, h1, h2 with
      | [c], _, _ => exact has0xPrefix_second_ne c ' ' [] (by decide)
      | c1 :: c2 :: t2, _, h2 =>
        have hc2 : isDigit c2 = true := by
          simp only [List.all_cons, Bool.and_eq_true] at h2
          exact h2.2.1
        exact has0xPrefix_second_ne c1 c2 (t2 ++ [' ']) (isDigit_ne c2 hc2).1
    have hparse : bigIntUnmarshalText (ds ++ [' ']) = none := by
      match ds, h1, h0, h2 with
      | c :: t2, _, h0, h2 =>
        have hc : isDigit c = true := by
          simp only [List.all_cons, Bool.and_eq_true] at h2
          exact h2.1
        have hc0 : c ≠ '0' := by simpa using h0
        rw [List.cons_append]
        rw [bigIntUnmarshalText_nosign c (t2 ++ [' '])
          (isDigit_ne c hc).2.1 (isDigit_ne c hc).2.2.1]
        rw [natScanBase0_decimal c (t2 ++ [' ']) hc0]
        rw [show c :: (t2 ++ [' ']) = (c :: t2) ++ [' '] from rfl]
        rw [scanDigits_digits_space (c :: t2) h2 0 0 ScanPrev.other]
        rfl
    unfold UnmarshalText
    rw [hpre]
    simp only [Bool.false_eq_true, if_false]
    rw [hparse]
  · unfold UnmarshalText
    rw [has0xPrefix_cons]
    rfl

/-- Witness for C8 with the digit string `"42"`. -/
theorem C8thm_witness :
    (['4', '2'] : List Char) ≠ [] ∧ (['4', '2'] : List Char).headD ' ' ≠ '0' ∧
    (['4', '2'] : List Char).all isDigit = true ∧
    decDigitsVal ['4', '2'] < 2 ^ 256 ∧
    UnmarshalText ⟨0⟩ ['4', '2'] = (GoResult.ok (), ⟨(decDigitsVal ['4', '2'] : Int)⟩) ∧
    UnmarshalText ⟨0⟩ ['0', '1', '7'] = (GoResult.ok (), ⟨15⟩) := by
  have h := C8thm ⟨0⟩ ['4', '2'] ['1'] ['1'] (by decide) (by decide) (by decide)
    (by decide)
  exact ⟨by decide, by decide, by decide, by decide, h.1, h.2.2.2.2.2.1⟩

/-!  Claim C9. -/

/-- C9: the hex encoding `String()` is `"0x"` followed by lowercase hex
digits whose first digit is never `'0'` except for the zero value, which
renders as exactly `"0x0"`; `MarshalText` emits the same string. -/
theorem C9thm (n : Nat) (hn : 0 < n) :
    Uint256.String ⟨0⟩ = ['0', 'x', '0'] ∧
    MarshalText ⟨0⟩ = GoResult.ok ['0', 'x', '0'] ∧
    Uint256.String ⟨(n : Int)⟩ = '0' :: 'x' :: natToHex n ∧
    (natToHex n).headD ' ' ≠ '0' ∧
    (∀ c ∈ natToHex n, isLowerHexDigit c = true) ∧
    MarshalText ⟨(n : Int)⟩ = GoResult.ok (Uint256.String ⟨(n : Int)⟩) := by
  have hx0 : ¬ ((n : Int) = 0) := by omega
  have hxpos : (0 : Int) < (n : Int) := by omega
  have htn : ((n : Int)).toNat = n := by omega
  refine ⟨by decide, by decide, ?_, natToHex_head_ne_zero n hn,
    natToHex_isLowerHex n, rfl⟩
  unfold Uint256.String Uint256.string encodeBig
  rw [if_neg hx0, if_pos hxpos, htn]
  rfl

/-- Witness for C9 at `n = 5`. -/
theorem C9thm_witness :
    0 < (5 : Nat) ∧
    Uint256.String ⟨((5 : Nat) : Int)⟩ = '0' :: 'x' :: natToHex 5 ∧
    (natToHex 5).headD ' ' ≠ '0' := by
  refine ⟨by decide, ?_, ?_⟩
  · exact (C9thm 5 (by decide)).2.2.1
  · exact (C9thm 5 (by decide)).2.2.2.1

/-!  Claim C10. -/

/-- `setBigInt` leaves the receiver untouched whenever it errors. -/
theorem setBigInt_err_frame (x256 : Uint256) (x : Option Int) (e : Err)
    (h : (setBigInt x256 x).1 = GoResult.err e) : (setBigInt x256 x).2 = x256 := by
  cases x with
  | none => rfl
  | some v =>
    by_cases h1 : v < 0
    · simp only [setBigInt, if_pos h1]
    · by_cases h2 : maxBitLength < bitLen v.toNat
      · simp only [setBigInt, if_neg h1, if_pos h2]
      · simp only [setBigInt, if_neg h1, if_neg h2] at h
        exact absurd h (by simp)

/-- The decode-then-set tail of `setHex` leaves the receiver untouched
whenever it errors. -/
theorem setHexTail_err_frame (x256 : Uint256) (b : List Char) (e : Err)
    (h : (match decodeBig b with
      | .error e2 => (GoResult.err (Err.hexWrap e2), x256)
      | .ok v => setBigInt x256 (some v)).1 = GoResult.err e) :
    (match decodeBig b with
      | .error e2 => (GoResult.err (Err.hexWrap e2), x256)
      | .ok v => setBigInt x256 (some v)).2 = x256 := by
  cases hd : decodeBig b with
  | error e2 => rfl
  | ok v =>
    simp only [hd] at h
    exact setBigInt_err_frame x256 (some v) e h

/-- `setHex` leaves the receiver untouched whenever it errors. -/
theorem setHex_err_frame (x256 : Uint256) (s : List Char) (e : Err)
    (h : (setHex x256 s).1 = GoResult.err e) : (setHex x256 s).2 = x256 := by
  unfold setHex at h ⊢
  cases hp : has0xPrefix s with
  | false => rfl
  | true =>
    rw [hp] at h
    cases hq : is0x s with
    | true => rfl
    | false =>
      rw [hq] at h
      exact setHexTail_err_frame x256
        (if is0x (['0', 'x'] ++ stripZeros (List.drop 2 s))
          then (['0', 'x'] ++ stripZeros (List.drop 2 s)) ++ ['0']
          else ['0', 'x'] ++ stripZeros (List.drop 2 s)) e h

/-- `UnmarshalText` leaves the receiver untouched whenever it errors. -/
theorem unmarshalText_err_frame (x256 : Uint256) (t : List Char) (e : Err)
    (h : (UnmarshalText x256 t).1 = GoResult.err e) :
    (UnmarshalText x256 t).2 = x256 := by
  unfold UnmarshalText at h ⊢
  cases hp : has0xPrefix t with
  | true =>
    rw [hp] at h
    exact setHex_err_frame x256 t e h
  | false =>
    rw [hp] at h
    cases hq : bigIntUnmarshalText t with
    | none => rfl
    | some v =>
      simp only [hq] at h
      exact setBigInt_err_frame x256 (some v) e h

/-- `UnmarshalJSON` leaves the receiver untouched whenever it errors. -/
theorem unmarshalJSON_err_frame (x256 : Uint256) (b : List Char) (e : Err)
    (h : (UnmarshalJSON x256 b).1 = GoResult.err e) :
    (UnmarshalJSON x256 b).2 = x256 := by
  unfold UnmarshalJSON at h ⊢
  by_cases h0 : b.length = 0
  · rw [if_pos h0]
  · rw [if_neg h0] at h ⊢
    by_cases hq : b.getD 0 ' ' = '"' ∧ b.getD (b.length - 1) ' ' = '"'
    · rw [if_pos hq] at h ⊢
      by_cases h2 : 2 ≤ b.length
      · rw [if_pos h2] at h ⊢
        exact unmarshalText_err_frame x256 _ e h
      · rw [if_neg h2]
    · rw [if_neg hq] at h ⊢
      exact unmarshalText_err_frame x256 b e h

/-- `Scan` leaves the receiver untouched whenever it errors. -/
theorem scan_err_frame (x256 : Uint256) (src : Option ScanSrc) (e : Err)
    (h : (Scan x256 src).1 = GoResult.err e) : (Scan x256 src).2 = x256 := by
  cases src with
  | none => rfl
  | some s =>
    cases s with
    | otherType => rfl
    | bytes b =>
      by_cases h0 : b.length = 0
      · simp only [Scan, if_pos h0]
      · by_cases h1 : maxByteLength < b.length
        · simp only [Scan, if_neg h0, if_pos h1]
        · simp only [Scan, if_neg h0, if_neg h1] at h
          exact absurd h (by simp)

/-- C10: atomicity on decode failure: whenever `Scan`, `UnmarshalText` or
`UnmarshalJSON` returns an error, the receiver's stored magnitude after the
call is exactly what it was before the call. -/
theorem C10thm (x256 : Uint256) (src : Option ScanSrc) (text bj : List Char)
    (e1 e2 e3 : Err)
    (h1 : (Scan x256 src).1 = GoResult.err e1)
    (h2 : (UnmarshalText x256 text).1 = GoResult.err e2)
    (h3 : (UnmarshalJSON x256 bj).1 = GoResult.err e3) :
    (Scan x256 src).2 = x256 ∧ (UnmarshalText x256 text).2 = x256 ∧
    (UnmarshalJSON x256 bj).2 = x256 :=
  ⟨scan_err_frame x256 src e1 h1, unmarshalText_err_frame x256 text e2 h2,
    unmarshalJSON_err_frame x256 bj e3 h3⟩

/-- Witness for C10: three concrete failing decodes leave the receiver 5. -/
theorem C10thm_witness :
    (Scan ⟨5⟩ none).1 = GoResult.err Err.srcNil ∧
    (UnmarshalText ⟨5⟩ ['z']).1 = GoResult.err Err.bigIntUnmarshalErr ∧
    (UnmarshalJSON ⟨5⟩ ['n', 'u', 'l', 'l']).1 = GoResult.err Err.bigIntUnmarshalErr ∧
    (Scan ⟨5⟩ none).2 = ⟨5⟩ ∧ (UnmarshalText ⟨5⟩ ['z']).2 = ⟨5⟩ ∧
    (UnmarshalJSON ⟨5⟩ ['n', 'u', 'l', 'l']).2 = ⟨5⟩ := by
  have h := C10thm ⟨5⟩ none ['z'] ['n', 'u', 'l', 'l'] Err.srcNil
    Err.bigIntUnmarshalErr Err.bigIntUnmarshalErr (by decide) (by decide) (by decide)
  exact ⟨by decide, by decide, by decide, h.1, h.2.1, h.2.2⟩


end Bigutil
